import Mathlib

/-!
Shallow embedding of the LP-file reader (`extern/filereaderlp/reader.cpp`).

Numeric token values (C++ `double`) are modelled by `Val`: a rational
together with the two infinities.  The reader only ever negates a value and
compares it for equality against `2.0`, both of which are exact on doubles,
so the rational model is faithful.

`lpassert` failures (parse errors) are modelled by `Option`: `none` is a
parse error, `some` the successful result.
-/

/-- Numeric value of a token: finite (rational) or one of the infinities.
`infinity`/`inf` keywords produce `pinf`; a `-` before a constant negates. -/
inductive Val where
  | fin (q : Rat)
  | pinf
  | ninf
deriving DecidableEq, Repr

/-- Negation, as applied by the classifier rule `MINUS NUMBER`. -/
def Val.neg : Val → Val
  | .fin q => .fin (-q)
  | .pinf => .ninf
  | .ninf => .pinf

/-- Mirrors `enum class RawTokenType` plus payloads (`RawStringToken`, `RawConstantToken`).
`NONE` is never constructed by the lexer and is omitted. -/
inductive RawTok where
  | STR (s : String)
  | CONS (v : Val)
  | LESS
  | GREATER
  | EQUAL
  | COLON
  | LNEND
  | FLEND
  | BRKOP
  | BRKCL
  | PLUS
  | MINUS
  | HAT
  | SLASH
  | ASTERISK
deriving DecidableEq, Repr

/-- Mirrors `enum class LpSectionKeyword`. -/
inductive LpSectionKeyword where
  | NONE
  | OBJ
  | CON
  | BOUNDS
  | GEN
  | BIN
  | SEMI
  | SOS
  | END
deriving DecidableEq, Repr

/-- Mirrors `enum class LpObjectiveSectionKeywordType`. -/
inductive LpObjKw where
  | NONE
  | MIN
  | MAX
deriving DecidableEq, Repr

/-- Mirrors `enum class LpComparisonType`. -/
inductive LpComparisonType where
  | LEQ
  | L
  | EQ
  | G
  | GEQ
deriving DecidableEq, Repr

/-- Processed tokens (`ProcessedToken` hierarchy).  `SECID` carries the
objective sense (`LpObjKw.NONE` when the header is not an objective header,
mirroring a plain `ProcessedTokenSectionKeyword`). -/
inductive PTok where
  | SECID (k : LpSectionKeyword) (os : LpObjKw)
  | VARID (name : String)
  | CONID (name : String)
  | CONST (v : Val)
  | FREE
  | BRKOP
  | BRKCL
  | COMP (dir : LpComparisonType)
  | SLASH
  | ASTERISK
  | HAT
  | SOSTYPE (s : String)
deriving DecidableEq, Repr

/-- Mirrors `isstrequalnocase`: equal length and per-character `tolower` equality;
for ASCII this is exactly equality of the lower-cased character lists. -/
def isstrequalnocase (a b : String) : Bool :=
  a.data.map Char.toLower == b.data.map Char.toLower

/-- Mirrors `iskeyword`. -/
def iskeyword (s : String) (ks : List String) : Bool :=
  ks.any (fun k => isstrequalnocase s k)

/-- Modelled from the spec: the keyword tables `LP_KEYWORD_*` live in
`def.hpp`, which is not part of the sources; the lists follow the section
keyword table of the specification (section 4.2). -/
def LP_KEYWORD_MIN : List String := ["minimize", "minimum", "min"]

/-- Modelled from the spec: see `LP_KEYWORD_MIN`. -/
def LP_KEYWORD_MAX : List String := ["maximize", "maximum", "max"]

/-- Modelled from the spec: see `LP_KEYWORD_MIN`. -/
def LP_KEYWORD_ST : List String := ["subject to", "such that", "st", "s.t."]

/-- Modelled from the spec: see `LP_KEYWORD_MIN`. -/
def LP_KEYWORD_BOUNDS : List String := ["bounds", "bound"]

/-- Modelled from the spec: see `LP_KEYWORD_MIN`. -/
def LP_KEYWORD_GEN : List String := ["general", "generals", "gen"]

/-- Modelled from the spec: see `LP_KEYWORD_MIN`. -/
def LP_KEYWORD_BIN : List String := ["binary", "binaries", "bin"]

/-- Modelled from the spec: see `LP_KEYWORD_MIN`. -/
def LP_KEYWORD_SEMI : List String := ["semi-continuous", "semi"]

/-- Modelled from the spec: see `LP_KEYWORD_MIN`. -/
def LP_KEYWORD_SOS : List String := ["sos"]

/-- Modelled from the spec: see `LP_KEYWORD_MIN`. -/
def LP_KEYWORD_END : List String := ["end"]

/-- Modelled from the spec: see `LP_KEYWORD_MIN`. -/
def LP_KEYWORD_FREE : List String := ["free"]

/-- Modelled from the spec: see `LP_KEYWORD_MIN`. -/
def LP_KEYWORD_INF : List String := ["infinity", "inf"]

/-- Mirrors `parseobjectivesectionkeyword`. -/
def parseobjectivesectionkeyword (s : String) : LpObjKw :=
  if iskeyword s LP_KEYWORD_MIN then .MIN
  else if iskeyword s LP_KEYWORD_MAX then .MAX
  else .NONE

/-- Mirrors `parsesectionkeyword`. -/
def parsesectionkeyword (s : String) : LpSectionKeyword :=
  if parseobjectivesectionkeyword s ≠ .NONE then .OBJ
  else if iskeyword s LP_KEYWORD_ST then .CON
  else if iskeyword s LP_KEYWORD_BOUNDS then .BOUNDS
  else if iskeyword s LP_KEYWORD_BIN then .BIN
  else if iskeyword s LP_KEYWORD_GEN then .GEN
  else if iskeyword s LP_KEYWORD_SEMI then .SEMI
  else if iskeyword s LP_KEYWORD_SOS then .SOS
  else if iskeyword s LP_KEYWORD_END then .END
  else .NONE

/-! ## Classifier (`Reader::processtokens`)

One classification step per rule, in the exact order of the C++ `if`
chain; a rule returns `none` when it does not apply and the chain falls
through to the next one.  The chain's catch-all `lpassert(false)` is the
final `none`. -/

/-- Rule: long section keyword `STR MINUS STR` (e.g. `semi-continuous`). -/
def ruleKw3 : List RawTok → Option (List PTok × List RawTok)
  | .STR a :: .MINUS :: .STR b :: rest =>
      let kw := parsesectionkeyword (a ++ "-" ++ b)
      if kw ≠ .NONE then some ([.SECID kw .NONE], rest) else none
  | _ => none

/-- Rule: long section keyword `STR STR` (e.g. `subject to`). -/
def ruleKw2 : List RawTok → Option (List PTok × List RawTok)
  | .STR a :: .STR b :: rest =>
      let kw := parsesectionkeyword (a ++ " " ++ b)
      if kw ≠ .NONE then some ([.SECID kw .NONE], rest) else none
  | _ => none

/-- Rule: one-token section keyword; objective keywords carry the sense. -/
def ruleKw1 : List RawTok → Option (List PTok × List RawTok)
  | .STR a :: rest =>
      let kw := parsesectionkeyword a
      if kw ≠ .NONE then
        if kw = .OBJ then some ([.SECID .OBJ (parseobjectivesectionkeyword a)], rest)
        else some ([.SECID kw .NONE], rest)
      else none
  | _ => none

/-- Rule: SOS type identifier `STR COLON COLON`. -/
def ruleSos : List RawTok → Option (List PTok × List RawTok)
  | .STR a :: .COLON :: .COLON :: rest => some ([.SOSTYPE a], rest)
  | _ => none

/-- Rule: constraint identifier `STR COLON`. -/
def ruleCon : List RawTok → Option (List PTok × List RawTok)
  | .STR a :: .COLON :: rest => some ([.CONID a], rest)
  | _ => none

/-- Rule: the `free` keyword. -/
def ruleFree : List RawTok → Option (List PTok × List RawTok)
  | .STR a :: rest =>
      if iskeyword a LP_KEYWORD_FREE then some ([.FREE], rest) else none
  | _ => none

/-- Rule: the `infinity` keyword. -/
def ruleInf : List RawTok → Option (List PTok × List RawTok)
  | .STR a :: rest =>
      if iskeyword a LP_KEYWORD_INF then some ([.CONST .pinf], rest) else none
  | _ => none

/-- Rule: any remaining string is a variable identifier. -/
def ruleVar : List RawTok → Option (List PTok × List RawTok)
  | .STR a :: rest => some ([.VARID a], rest)
  | _ => none

/-- Rule: `PLUS NUMBER`. -/
def rulePlusCons : List RawTok → Option (List PTok × List RawTok)
  | .PLUS :: .CONS v :: rest => some ([.CONST v], rest)
  | _ => none

/-- Rule: `MINUS NUMBER`. -/
def ruleMinusCons : List RawTok → Option (List PTok × List RawTok)
  | .MINUS :: .CONS v :: rest => some ([.CONST v.neg], rest)
  | _ => none

/-- Rule: `PLUS BRACKET_OPEN`. -/
def rulePlusBrk : List RawTok → Option (List PTok × List RawTok)
  | .PLUS :: .BRKOP :: rest => some ([.BRKOP], rest)
  | _ => none

/-- Rule: bare `PLUS`. -/
def rulePlus : List RawTok → Option (List PTok × List RawTok)
  | .PLUS :: rest => some ([.CONST (.fin 1)], rest)
  | _ => none

/-- Rule: bare `MINUS`. -/
def ruleMinus : List RawTok → Option (List PTok × List RawTok)
  | .MINUS :: rest => some ([.CONST (.fin (-1))], rest)
  | _ => none

/-- Rule: bare `NUMBER`. -/
def ruleCons : List RawTok → Option (List PTok × List RawTok)
  | .CONS v :: rest => some ([.CONST v], rest)
  | _ => none

/-- Rules: brackets, slash, asterisk, hat. -/
def rulePunct : List RawTok → Option (List PTok × List RawTok)
  | .BRKOP :: rest => some ([.BRKOP], rest)
  | .BRKCL :: rest => some ([.BRKCL], rest)
  | .SLASH :: rest => some ([.SLASH], rest)
  | .ASTERISK :: rest => some ([.ASTERISK], rest)
  | .HAT :: rest => some ([.HAT], rest)
  | _ => none

/-- Rules: comparisons (`<=`, `<`, `>=`, `>`, `=`). -/
def ruleComp : List RawTok → Option (List PTok × List RawTok)
  | .LESS :: .EQUAL :: rest => some ([.COMP .LEQ], rest)
  | .LESS :: rest => some ([.COMP .L], rest)
  | .GREATER :: .EQUAL :: rest => some ([.COMP .GEQ], rest)
  | .GREATER :: rest => some ([.COMP .G], rest)
  | .EQUAL :: rest => some ([.COMP .EQ], rest)
  | _ => none

/-- Rule: `FILE_END` is skipped. -/
def ruleFlend : List RawTok → Option (List PTok × List RawTok)
  | .FLEND :: rest => some ([], rest)
  | _ => none

/-- First-applicable-rule combinator (the `continue` of the C++ `if` chain). -/
def orr (a : Option (List PTok × List RawTok))
    (b : Unit → Option (List PTok × List RawTok)) :
    Option (List PTok × List RawTok) :=
  match a with
  | some r => some r
  | none => b ()

/-- One step of `Reader::processtokens`: the rules in source order. -/
def ptstep (ts : List RawTok) : Option (List PTok × List RawTok) :=
  orr (ruleKw3 ts) fun _ =>
  orr (ruleKw2 ts) fun _ =>
  orr (ruleKw1 ts) fun _ =>
  orr (ruleSos ts) fun _ =>
  orr (ruleCon ts) fun _ =>
  orr (ruleFree ts) fun _ =>
  orr (ruleInf ts) fun _ =>
  orr (ruleVar ts) fun _ =>
  orr (rulePlusCons ts) fun _ =>
  orr (ruleMinusCons ts) fun _ =>
  orr (rulePlusBrk ts) fun _ =>
  orr (rulePlus ts) fun _ =>
  orr (ruleMinus ts) fun _ =>
  orr (ruleCons ts) fun _ =>
  orr (rulePunct ts) fun _ =>
  orr (ruleComp ts) fun _ =>
  ruleFlend ts

/-- Driver for the classifier loop.  Every applicable rule consumes at
least one raw token, so `ts.length` steps of fuel always suffice. -/
def ptrun : Nat → List RawTok → Option (List PTok)
  | _, [] => some []
  | 0, _ :: _ => none
  | fuel + 1, ts =>
      match ptstep ts with
      | none => none
      | some (out, rest) =>
          match ptrun fuel rest with
          | none => none
          | some more => some (out ++ more)

/-- Mirrors `Reader::processtokens`. -/
def processtokens (ts : List RawTok) : Option (List PTok) :=
  ptrun ts.length ts

/-! ## Model builder (`builder.hpp` is not among the sources)

Modelled from the spec: `Variable`, `Expression`, `Constraint`, `SOS` and
`Model` live in `builder.hpp`/`model.hpp`, which are absent; fields and
defaults follow section 3 of the specification (lower bound 0, upper bound
+infinity, type continuous; model sense minimize; constraint bounds default
to the infinities, matching "`<=` -> upper = v (lower = -inf)"). -/

/-- Variable type (`VariableType`). -/
inductive VariableType where
  | CONTINUOUS
  | BINARY
  | GENERAL
  | SEMICONTINUOUS
  | SEMIINTEGER
deriving DecidableEq, Repr

/-- Modelled from the spec: a variable with its interning defaults. -/
structure Variable where
  name : String
  lowerbound : Val := .fin 0
  upperbound : Val := .pinf
  type : VariableType := .CONTINUOUS
deriving DecidableEq, Repr

/-- The interning table of the builder, in creation order. -/
abbrev Store := List Variable

/-- Mirrors `Builder::getvarbyname`: return the store, interning a fresh variable
with default bounds and type on first mention. -/
def getvarbyname (st : Store) (n : String) : Store :=
  if st.any (fun w => w.name == n) then st
  else st ++ [{ name := n }]

/-- Mutation through the shared pointer returned by `getvarbyname`:
intern `n`, then update its entry in place. -/
def updvar (st : Store) (n : String) (f : Variable → Variable) : Store :=
  (getvarbyname st n).map (fun w => if w.name == n then f w else w)

/-- Expression: linear terms are (coefficient, variable name) in source
order, quadratic terms (coefficient, name, name). -/
structure Expression where
  name : String := ""
  linterms : List (Val × String) := []
  quadterms : List (Val × String × String) := []
  offset : Val := .fin 0
deriving DecidableEq, Repr

/-- Constraint (bounds default to the infinities; see the module note). -/
structure Constraint where
  expr : Expression := {}
  lowerbound : Val := .ninf
  upperbound : Val := .pinf
deriving DecidableEq, Repr

/-- SOS group: name, type (1 or 2) and (variable name, weight) entries. -/
structure SOS where
  name : String := ""
  type : Nat := 0
  entries : List (String × Val) := []
deriving DecidableEq, Repr

/-- Objective sense (`ObjectiveSense`), defaulting to minimize. -/
inductive ObjectiveSense where
  | MIN
  | MAX
deriving DecidableEq, Repr

/-- The model accumulated by the builder. -/
structure Model where
  sense : ObjectiveSense := .MIN
  objective : Expression := {}
  constraints : List Constraint := []
  soss : List SOS := []
  vars : Store := []
deriving DecidableEq, Repr

/-! ## Expression parser (`Reader::parseexpression`)

The loops are written with explicit fuel; every iteration consumes at
least one token, so `ts.length + 1` units always suffice.  Token tests
mirror the `tokens[i]->type == ...` checks through `List.get?`. -/

/-- Test `tokens[i]->type == CONST` on an optional token. -/
def optIsCONST : Option PTok → Bool
  | some (.CONST _) => true
  | _ => false

/-- Payload of a constant token (never read unless `optIsCONST`). -/
def optConstVal : Option PTok → Val
  | some (.CONST v) => v
  | _ => .fin 0

def optIsVARID : Option PTok → Bool
  | some (.VARID _) => true
  | _ => false

def optIsCONID : Option PTok → Bool
  | some (.CONID _) => true
  | _ => false

/-- The `name` field read through a `ProcessedConsIdToken*`/
`ProcessedVarIdToken*` cast.  For any other token type the C++ cast is
undefined behaviour; those cases return `""` here and no theorem below
depends on them. -/
def optName : Option PTok → String
  | some (.VARID n) => n
  | some (.CONID n) => n
  | _ => ""

def optIsBRKOP : Option PTok → Bool
  | some .BRKOP => true
  | _ => false

def optIsBRKCL : Option PTok → Bool
  | some .BRKCL => true
  | _ => false

def optIsSLASH : Option PTok → Bool
  | some .SLASH => true
  | _ => false

def optIsHAT : Option PTok → Bool
  | some .HAT => true
  | _ => false

def optIsAST : Option PTok → Bool
  | some .ASTERISK => true
  | _ => false

def optIsCOMP : Option PTok → Bool
  | some (.COMP _) => true
  | _ => false

/-- Payload of a comparison token. -/
def optCompDir : Option PTok → LpComparisonType
  | some (.COMP d) => d
  | _ => .EQ

def optIsFREE : Option PTok → Bool
  | some .FREE => true
  | _ => false

def optIsSECID : Option PTok → Bool
  | some (.SECID _ _) => true
  | _ => false

def optIsSOSTYPE : Option PTok → Bool
  | some (.SOSTYPE _) => true
  | _ => false

/-- Payload of an SOS type token. -/
def optSosName : Option PTok → String
  | some (.SOSTYPE s) => s
  | _ => ""

/-- The inner `while` of the quadratic block: collects quadratic terms
until the closing bracket or an unmatched shape. -/
def parseexprquad (ts : List PTok) :
    Nat → Expression → Store → Nat → Option (Expression × Store × Nat)
  | 0, _, _, _ => none
  | fuel + 1, e, st, i =>
    if i < ts.length ∧ optIsBRKCL (ts.get? i) = false then
      -- const var hat const
      if optIsCONST (ts.get? i) = true ∧ optIsVARID (ts.get? (i+1)) = true ∧
          optIsHAT (ts.get? (i+2)) = true ∧ optIsCONST (ts.get? (i+3)) = true ∧
          i + 4 ≤ ts.length then
        if optConstVal (ts.get? (i+3)) = .fin 2 then
          let n := optName (ts.get? (i+1))
          let st' := getvarbyname (getvarbyname st n) n
          parseexprquad ts fuel
            { e with quadterms := e.quadterms ++ [(optConstVal (ts.get? i), n, n)] } st' (i+4)
        else none
      -- var hat const
      else if optIsVARID (ts.get? i) = true ∧ optIsHAT (ts.get? (i+1)) = true ∧
          optIsCONST (ts.get? (i+2)) = true ∧ i + 3 ≤ ts.length then
        if optConstVal (ts.get? (i+2)) = .fin 2 then
          let n := optName (ts.get? i)
          let st' := getvarbyname (getvarbyname st n) n
          parseexprquad ts fuel
            { e with quadterms := e.quadterms ++ [(.fin 1, n, n)] } st' (i+3)
        else none
      -- const var asterisk var
      else if optIsCONST (ts.get? i) = true ∧ optIsVARID (ts.get? (i+1)) = true ∧
          optIsAST (ts.get? (i+2)) = true ∧ optIsVARID (ts.get? (i+3)) = true ∧
          i + 4 ≤ ts.length then
        let n1 := optName (ts.get? (i+1))
        let n2 := optName (ts.get? (i+3))
        let st' := getvarbyname (getvarbyname st n1) n2
        parseexprquad ts fuel
          { e with quadterms := e.quadterms ++ [(optConstVal (ts.get? i), n1, n2)] } st' (i+4)
      -- var asterisk var
      else if optIsVARID (ts.get? i) = true ∧ optIsAST (ts.get? (i+1)) = true ∧
          optIsVARID (ts.get? (i+2)) = true ∧ i + 3 ≤ ts.length then
        let n1 := optName (ts.get? i)
        let n2 := optName (ts.get? (i+2))
        let st' := getvarbyname (getvarbyname st n1) n2
        parseexprquad ts fuel
          { e with quadterms := e.quadterms ++ [(.fin 1, n1, n2)] } st' (i+3)
      else some (e, st, i)  -- break: leave the loop, caller checks the bracket
    else some (e, st, i)

/-- The main `while` of `Reader::parseexpression`. -/
def parseexprloop (ts : List PTok) (isobj : Bool) :
    Nat → Expression → Store → Nat → Option (Expression × Store × Nat)
  | 0, _, _, _ => none
  | fuel + 1, e, st, i =>
    if i < ts.length then
      -- const var
      if optIsCONST (ts.get? i) = true ∧ optIsVARID (ts.get? (i+1)) = true ∧
          i + 2 ≤ ts.length then
        let n := optName (ts.get? (i+1))
        parseexprloop ts isobj fuel
          { e with linterms := e.linterms ++ [(optConstVal (ts.get? i), n)] }
          (getvarbyname st n) (i+2)
      -- const
      else if optIsCONST (ts.get? i) = true then
        parseexprloop ts isobj fuel { e with offset := optConstVal (ts.get? i) } st (i+1)
      -- var
      else if optIsVARID (ts.get? i) = true then
        let n := optName (ts.get? i)
        parseexprloop ts isobj fuel
          { e with linterms := e.linterms ++ [(.fin 1, n)] } (getvarbyname st n) (i+1)
      -- quadratic expression
      else if optIsBRKOP (ts.get? i) = true ∧ i + 2 ≤ ts.length then
        match parseexprquad ts (ts.length + 1) e st (i+1) with
        | none => none
        | some (e', st', j) =>
          if isobj then
            -- only in the objective, the block is followed by "/2.0"
            if j + 3 ≤ ts.length ∧ optIsBRKCL (ts.get? j) = true ∧
                optIsSLASH (ts.get? (j+1)) = true ∧ optIsCONST (ts.get? (j+2)) = true ∧
                optConstVal (ts.get? (j+2)) = .fin 2 then
              parseexprloop ts isobj fuel e' st' (j+3)
            else none
          else
            if j + 1 ≤ ts.length ∧ optIsBRKCL (ts.get? j) = true then
              parseexprloop ts isobj fuel e' st' (j+1)
            else none
      else some (e, st, i)  -- break
    else some (e, st, i)

/-- Mirrors `Reader::parseexpression`.  Note the leading-label check: the C++
tests `tokens[0]->type` (index zero of the whole slice) but reads the
name from `tokens[i]`. -/
def parseexpression (ts : List PTok) (e : Expression) (st : Store) (i : Nat)
    (isobj : Bool) : Option (Expression × Store × Nat) :=
  if i + 1 ≤ ts.length ∧ optIsCONID (ts.get? 0) = true then
    parseexprloop ts isobj (ts.length + 1) { e with name := optName (ts.get? i) } st (i+1)
  else
    parseexprloop ts isobj (ts.length + 1) e st i

/-! ## Section splitter and section processors -/

/-- The per-section token buckets (`std::map<LpSectionKeyword, ...>`). -/
structure Buckets where
  noneB : List PTok := []
  objB : List PTok := []
  conB : List PTok := []
  boundsB : List PTok := []
  genB : List PTok := []
  binB : List PTok := []
  semiB : List PTok := []
  sosB : List PTok := []
  endB : List PTok := []
deriving DecidableEq, Repr

/-- Bucket access `sectiontokens[k]`. -/
def Buckets.get (bks : Buckets) : LpSectionKeyword → List PTok
  | .NONE => bks.noneB
  | .OBJ => bks.objB
  | .CON => bks.conB
  | .BOUNDS => bks.boundsB
  | .GEN => bks.genB
  | .BIN => bks.binB
  | .SEMI => bks.semiB
  | .SOS => bks.sosB
  | .END => bks.endB

/-- Bucket append `sectiontokens[k].push_back(t)`. -/
def Buckets.push (bks : Buckets) (k : LpSectionKeyword) (t : PTok) : Buckets :=
  match k with
  | .NONE => { bks with noneB := bks.noneB ++ [t] }
  | .OBJ => { bks with objB := bks.objB ++ [t] }
  | .CON => { bks with conB := bks.conB ++ [t] }
  | .BOUNDS => { bks with boundsB := bks.boundsB ++ [t] }
  | .GEN => { bks with genB := bks.genB ++ [t] }
  | .BIN => { bks with binB := bks.binB ++ [t] }
  | .SEMI => { bks with semiB := bks.semiB ++ [t] }
  | .SOS => { bks with sosB := bks.sosB ++ [t] }
  | .END => { bks with endB := bks.endB ++ [t] }

/-- The loop of `Reader::splittokens`, returning the full final state
(current section, model sense, buckets). -/
def splitgo (cur : LpSectionKeyword) (sense : ObjectiveSense) (bks : Buckets) :
    List PTok → Option (LpSectionKeyword × ObjectiveSense × Buckets)
  | [] => some (cur, sense, bks)
  | .SECID k os :: rest =>
      -- on an objective header, record the sense (default case asserts)
      match (if k = .OBJ then
               match os with
               | .MIN => some ObjectiveSense.MIN
               | .MAX => some ObjectiveSense.MAX
               | .NONE => none
             else some sense) with
      | none => none
      | some sense' =>
          -- make sure this section did not yet occur
          if bks.get k = [] then splitgo k sense' bks rest else none
  | t :: rest => splitgo cur sense (bks.push cur t) rest

/-- Mirrors `Reader::splittokens`: bucket the processed tokens and set the sense. -/
def splittokens (ts : List PTok) : Option (Buckets × ObjectiveSense) :=
  match splitgo .NONE .MIN {} ts with
  | none => none
  | some (_, sense, bks) => some (bks, sense)

/-- Mirrors `Reader::processobjsec`: parse the objective bucket as one expression
and require that every token was consumed. -/
def processobjsec (ts : List PTok) (st : Store) : Option (Expression × Store) :=
  match parseexpression ts {} st 0 true with
  | none => none
  | some (e, st', i) => if i = ts.length then some (e, st') else none

/-- The loop of `Reader::processconsec`. -/
def conloop (ts : List PTok) :
    Nat → Store → Nat → List Constraint → Option (List Constraint × Store)
  | 0, _, _, _ => none
  | fuel + 1, st, i, acc =>
    if i < ts.length then
      match parseexpression ts {} st i false with
      | none => none
      | some (e, st', j) =>
        if j + 2 ≤ ts.length ∧ optIsCOMP (ts.get? j) = true ∧
            optIsCONST (ts.get? (j+1)) = true then
          let v := optConstVal (ts.get? (j+1))
          match optCompDir (ts.get? j) with
          | .EQ => conloop ts fuel st' (j+2)
              (acc ++ [{ expr := e, lowerbound := v, upperbound := v }])
          | .LEQ => conloop ts fuel st' (j+2) (acc ++ [{ expr := e, upperbound := v }])
          | .GEQ => conloop ts fuel st' (j+2) (acc ++ [{ expr := e, lowerbound := v }])
          | _ => none  -- strict comparisons: lpassert(false)
        else none
    else some (acc, st)

/-- Mirrors `Reader::processconsec`. -/
def processconsec (ts : List PTok) (st : Store) : Option (List Constraint × Store) :=
  conloop ts (ts.length + 1) st 0 []

/-- The loop of `Reader::processboundssec`. -/
def boundsloop (ts : List PTok) : Nat → Store → Nat → Option Store
  | 0, _, _ => none
  | fuel + 1, st, i =>
    if i < ts.length then
      -- VAR free
      if optIsVARID (ts.get? i) = true ∧ optIsFREE (ts.get? (i+1)) = true ∧
          i + 2 ≤ ts.length then
        boundsloop ts fuel
          (updvar st (optName (ts.get? i))
            (fun w => { w with lowerbound := .ninf, upperbound := .pinf })) (i+2)
      -- CONST COMP VAR COMP CONST
      else if optIsCONST (ts.get? i) = true ∧ optIsCOMP (ts.get? (i+1)) = true ∧
          optIsVARID (ts.get? (i+2)) = true ∧ optIsCOMP (ts.get? (i+3)) = true ∧
          optIsCONST (ts.get? (i+4)) = true ∧ i + 5 ≤ ts.length then
        if optCompDir (ts.get? (i+1)) = .LEQ ∧ optCompDir (ts.get? (i+3)) = .LEQ then
          boundsloop ts fuel
            (updvar st (optName (ts.get? (i+2)))
              (fun w => { w with lowerbound := optConstVal (ts.get? i),
                                 upperbound := optConstVal (ts.get? (i+4)) })) (i+5)
        else none
      -- CONST COMP VAR
      else if optIsCONST (ts.get? i) = true ∧ optIsCOMP (ts.get? (i+1)) = true ∧
          optIsVARID (ts.get? (i+2)) = true ∧ i + 3 ≤ ts.length then
        let v := optConstVal (ts.get? i)
        let n := optName (ts.get? (i+2))
        match optCompDir (ts.get? (i+1)) with
        | .LEQ => boundsloop ts fuel
            (updvar st n (fun w => { w with lowerbound := v })) (i+3)
        | .GEQ => boundsloop ts fuel
            (updvar st n (fun w => { w with upperbound := v })) (i+3)
        | .EQ => boundsloop ts fuel
            (updvar st n (fun w => { w with lowerbound := v, upperbound := v })) (i+3)
        | _ => none  -- lpassert(dir != L && dir != G)
      -- VAR COMP CONST
      else if optIsVARID (ts.get? i) = true ∧ optIsCOMP (ts.get? (i+1)) = true ∧
          optIsCONST (ts.get? (i+2)) = true ∧ i + 3 ≤ ts.length then
        let v := optConstVal (ts.get? (i+2))
        let n := optName (ts.get? i)
        match optCompDir (ts.get? (i+1)) with
        | .LEQ => boundsloop ts fuel
            (updvar st n (fun w => { w with upperbound := v })) (i+3)
        | .GEQ => boundsloop ts fuel
            (updvar st n (fun w => { w with lowerbound := v })) (i+3)
        | .EQ => boundsloop ts fuel
            (updvar st n (fun w => { w with lowerbound := v, upperbound := v })) (i+3)
        | _ => none
      else none  -- lpassert(false)
    else some st

/-- Mirrors `Reader::processboundssec`. -/
def processboundssec (ts : List PTok) (st : Store) : Option Store :=
  boundsloop ts (ts.length + 1) st 0

/-- Shared shape of `processbinsec`, `processgensec` and `processsemisec`:
every token must name a variable (`lpassert(... == VARID)`), whose interned
entry is updated in place. -/
def typefold (f : Variable → Variable) : List PTok → Store → Option Store
  | [], st => some st
  | .VARID n :: rest, st => typefold f rest (updvar st n f)
  | _, _ => none

/-- Update applied by `Reader::processbinsec`: type binary, bounds [0,1]. -/
def binupd (w : Variable) : Variable :=
  { w with type := .BINARY, lowerbound := .fin 0, upperbound := .fin 1 }

/-- Update applied by `Reader::processgensec`: a semi-continuous variable
is promoted to semi-integer, any other becomes general. -/
def genupd (w : Variable) : Variable :=
  if w.type = .SEMICONTINUOUS then { w with type := .SEMIINTEGER }
  else { w with type := .GENERAL }

/-- Update applied by `Reader::processsemisec`: a general variable is
promoted to semi-integer, any other becomes semi-continuous. -/
def semiupd (w : Variable) : Variable :=
  if w.type = .GENERAL then { w with type := .SEMIINTEGER }
  else { w with type := .SEMICONTINUOUS }

/-- Mirrors `Reader::processbinsec`. -/
def processbinsec : List PTok → Store → Option Store := typefold binupd

/-- Mirrors `Reader::processgensec`. -/
def processgensec : List PTok → Store → Option Store := typefold genupd

/-- Mirrors `Reader::processsemisec`. -/
def processsemisec : List PTok → Store → Option Store := typefold semiupd

/-- The inner `var : weight` loop of `Reader::processsossec`: the
classifier emitted those pairs as `CONID CONST`. -/
def sosentries (ts : List PTok) :
    Nat → Store → Nat → List (String × Val) → (List (String × Val) × Store × Nat)
  | 0, st, i, acc => (acc, st, i)
  | fuel + 1, st, i, acc =>
    if optIsCONID (ts.get? i) = true ∧ optIsCONST (ts.get? (i+1)) = true ∧
        i + 2 ≤ ts.length then
      let n := optName (ts.get? i)
      sosentries ts fuel (getvarbyname st n) (i+2)
        (acc ++ [(n, optConstVal (ts.get? (i+1)))])
    else (acc, st, i)

/-- The outer loop of `Reader::processsossec`. -/
def sosloop (ts : List PTok) :
    Nat → Store → Nat → List SOS → Option (List SOS × Store)
  | 0, _, _, _ => none
  | fuel + 1, st, i, acc =>
    if i < ts.length then
      if optIsCONID (ts.get? i) = true then
        let gname := optName (ts.get? i)
        if i + 1 < ts.length ∧ optIsSOSTYPE (ts.get? (i+1)) = true then
          let stype := optSosName (ts.get? (i+1))
          if stype.length = 2 ∧
              (stype.data.getD 0 ' ' = 'S' ∨ stype.data.getD 0 ' ' = 's') ∧
              (stype.data.getD 1 ' ' = '1' ∨ stype.data.getD 1 ' ' = '2') then
            let t := (stype.data.getD 1 ' ').toNat - '0'.toNat
            match sosentries ts (ts.length + 1) st (i+2) [] with
            | (es, st', j) =>
                sosloop ts fuel st' j (acc ++ [{ name := gname, type := t, entries := es }])
          else none
        else none
      else none
    else some (acc, st)

/-- Mirrors `Reader::processsossec`. -/
def processsossec (ts : List PTok) (st : Store) : Option (List SOS × Store) :=
  sosloop ts (ts.length + 1) st 0 []

/-- Mirrors `Reader::processsections`: the fixed processing order none, objective,
constraints, bounds, general, binary, semi, SOS, end. -/
def processsections (bks : Buckets) (sense : ObjectiveSense) : Option Model :=
  if bks.noneB = [] then  -- processnonesec
    match processobjsec bks.objB [] with
    | none => none
    | some (obj, st1) =>
      match processconsec bks.conB st1 with
      | none => none
      | some (cons, st2) =>
        match processboundssec bks.boundsB st2 with
        | none => none
        | some st3 =>
          match processgensec bks.genB st3 with
          | none => none
          | some st4 =>
            match processbinsec bks.binB st4 with
            | none => none
            | some st5 =>
              match processsemisec bks.semiB st5 with
              | none => none
              | some st6 =>
                match processsossec bks.sosB st6 with
                | none => none
                | some (soss, st7) =>
                  if bks.endB = [] then  -- processendsec
                    some { sense := sense, objective := obj, constraints := cons,
                           soss := soss, vars := st7 }
                  else none
  else none

/-- Mirrors `Reader::read` from the raw-token stream onward: classify, split,
process.  (The lexer is upstream of every claim considered here.) -/
def readFromRaw (rts : List RawTok) : Option Model :=
  match processtokens rts with
  | none => none
  | some pts =>
    match splittokens pts with
    | none => none
    | some (bks, sense) => processsections bks sense

/-! ## Helper lemmas -/

theorem orr_some {r : List PTok × List RawTok} {f : Unit → Option (List PTok × List RawTok)} :
    orr (some r) f = some r := rfl

theorem orr_none {f : Unit → Option (List PTok × List RawTok)} :
    orr none f = f () := rfl

/-- Lookup by name in the interning table, mirroring how the C++ map
`variablesbyname` resolves a name to the shared variable object. -/
def lookupvar (st : Store) (n : String) : Option Variable :=
  st.find? (fun w => w.name == n)

/-- The type recorded for name `n`, if interned. -/
def lookupType (st : Store) (n : String) : Option VariableType :=
  (lookupvar st n).map (fun w => w.type)

theorem getvarbyname_of_found {st : Store} {n : String}
    (h : (lookupvar st n).isSome) : getvarbyname st n = st := by
  unfold getvarbyname
  rw [if_pos]
  unfold lookupvar at h
  rw [List.find?_isSome] at h
  rw [List.any_eq_true]
  exact h

theorem getvarbyname_of_missing {st : Store} {n : String}
    (h : lookupvar st n = none) : getvarbyname st n = st ++ [{ name := n }] := by
  unfold getvarbyname
  rw [if_neg]
  intro hc
  rw [List.any_eq_true] at hc
  unfold lookupvar at h
  rw [List.find?_eq_none] at h
  obtain ⟨w, hw, hwn⟩ := hc
  exact h w hw hwn

theorem lookupvar_append (st st' : Store) (n : String) :
    lookupvar (st ++ st') n = (lookupvar st n).or (lookupvar st' n) := by
  unfold lookupvar
  exact List.find?_append

theorem lookupvar_name {st : Store} {n : String} {w : Variable}
    (h : lookupvar st n = some w) : w.name = n := by
  unfold lookupvar at h
  have := List.find?_some h
  simpa using this

theorem lookupvar_getvarbyname_self (st : Store) (n : String) :
    lookupvar (getvarbyname st n) n = some ((lookupvar st n).getD { name := n }) := by
  cases h : lookupvar st n with
  | some w =>
      rw [getvarbyname_of_found (by rw [h]; rfl), h]
      rfl
  | none =>
      rw [getvarbyname_of_missing h, lookupvar_append, h]
      simp [lookupvar, List.find?]

theorem lookupvar_getvarbyname_other (st : Store) (n m : String) (hnm : m ≠ n) :
    lookupvar (getvarbyname st n) m = lookupvar st m := by
  cases h : lookupvar st n with
  | some w => rw [getvarbyname_of_found (by rw [h]; rfl)]
  | none =>
      rw [getvarbyname_of_missing h, lookupvar_append]
      cases hm : lookupvar st m with
      | some w => rfl
      | none =>
          have hne : (n == m) = false := by
            simp [Ne.symm hnm]
          simp [lookupvar, List.find?, hne]

theorem getvarbyname_default_name (st : Store) (n : String) :
    ((lookupvar st n).getD { name := n }).name = n := by
  cases h : lookupvar st n with
  | some w => simpa using lookupvar_name h
  | none => rfl

theorem lookupvar_updvar_self (st : Store) (n : String) (f : Variable → Variable)
    (hf : ∀ w, (f w).name = w.name) :
    lookupvar (updvar st n f) n =
      some (f ((lookupvar st n).getD { name := n })) := by
  unfold updvar lookupvar
  rw [List.find?_map]
  have hcomp : ((fun w => w.name == n) ∘ fun w => if w.name == n then f w else w) =
      (fun w => w.name == n) := by
    funext w
    by_cases hw : w.name = n
    · simp [hw, hf]
    · simp [hw]
  rw [hcomp]
  have h2 := lookupvar_getvarbyname_self st n
  unfold lookupvar at h2
  rw [h2]
  have hdn := getvarbyname_default_name st n
  unfold lookupvar at hdn
  simp only [Option.map_some']
  rw [if_pos (by simp [hdn])]

theorem lookupvar_updvar_other (st : Store) (n m : String) (f : Variable → Variable)
    (hf : ∀ w, (f w).name = w.name) (hnm : m ≠ n) :
    lookupvar (updvar st n f) m = lookupvar st m := by
  unfold updvar lookupvar
  rw [List.find?_map]
  have hcomp : ((fun w => w.name == m) ∘ fun w => if w.name == n then f w else w) =
      (fun w => w.name == m) := by
    funext w
    by_cases hw : w.name = n
    · simp [hw, hf w, hnm.symm]
    · simp [hw]
  rw [hcomp]
  have h2 := lookupvar_getvarbyname_other st n m hnm
  unfold lookupvar at h2
  rw [h2]
  cases h : lookupvar st m with
  | some w =>
      unfold lookupvar at h
      rw [h]
      have hwm : w.name = m := by
        have := List.find?_some h
        simpa using this
      simp only [Option.map_some']
      rw [if_neg (by simp [hwm, hnm])]
  | none =>
      unfold lookupvar at h
      rw [h]
      rfl

/-! ## Claim theorems -/

/-- C1: the shared expression parser is claimed to consume a leading token
as the expression name if and only if the token at the current index `i`
is a `CONSTRAINT_LABEL`.  The code instead tests index 0 of the whole
slice.  Both directions fail: with a labelled second constraint (index 0
not a label), the label is never consumed and the constraints processor
errors out on it; with a labelled first constraint, the second constraint
consumes its leading `VARIABLE_ID` as a name. -/
theorem C1_label_index_bug :
    processconsec [.VARID "x", .COMP .LEQ, .CONST (.fin 0), .CONID "c2",
      .VARID "y", .COMP .LEQ, .CONST (.fin 2)] [] = none ∧
    processconsec [.CONID "c1", .VARID "x", .COMP .LEQ, .CONST (.fin 0),
      .VARID "y", .COMP .LEQ, .CONST (.fin 2)] [] =
      some ([{ expr := { name := "c1", linterms := [(.fin 1, "x")] },
               upperbound := .fin 0 },
             { expr := { name := "y" }, upperbound := .fin 2 }],
            [{ name := "x" }]) := by
  constructor <;> decide

/-- C2: the claim says a section kind appearing twice is a parse error and
`read` never returns a model for such input.  The splitter only asserts
that the bucket of the new section is empty, so duplicate headers of a
section that gathered no tokens are accepted: `min st st end` yields a
model (the empty default model, minimize sense). -/
theorem C2_duplicate_empty_header_accepted :
    readFromRaw [.STR "min", .STR "st", .STR "st", .STR "end", .FLEND] =
      some {} := by
  decide

/-- C3 counterexample: the claim says every input in which `MINUS`
immediately precedes `BRACKET_OPEN` fails with a parse error.  The
objective `o: - [ x^2 ] / 2` contains exactly that sequence and parses
successfully: the minus becomes the constant offset -1 and the quadratic
block keeps coefficient +1. -/
theorem C3_minus_bracket_parses :
    readFromRaw [.STR "min", .STR "o", .COLON, .MINUS, .BRKOP, .STR "x", .HAT,
      .CONS (.fin 2), .BRKCL, .SLASH, .CONS (.fin 2), .STR "end", .FLEND] =
      some { objective := { name := "o", quadterms := [(.fin 1, "x", "x")],
                            offset := .fin (-1) },
             vars := [{ name := "x" }] } := by
  decide

/-- C3 (amended): the classifier rewrites `PLUS BRACKET_OPEN` into a
single `BRACKET_OPEN`, and classifies a `MINUS` that immediately precedes
`BRACKET_OPEN` as `CONSTANT(-1)` (leaving the bracket for the next step);
a negative quadratic block is therefore not rejected but read as an
implicit constant followed by a positive block. -/
theorem C3_sign_before_bracket (rest : List RawTok) :
    ptstep (.PLUS :: .BRKOP :: rest) = some ([.BRKOP], rest) ∧
    ptstep (.MINUS :: .BRKOP :: rest) =
      some ([.CONST (.fin (-1))], .BRKOP :: rest) := by
  constructor <;> rfl

/-- C4: after the closing bracket of a quadratic block, the objective
parser requires and consumes `SLASH CONSTANT(=2)` and fails otherwise;
the constraint parser consumes only the bracket, so a `/2` trailer in a
constraint is a parse error; in both cases the stored quadratic
coefficient is the raw source coefficient `c`, never halved. -/
theorem C4_quad_block_trailer (c : Rat) (v : String) :
    processobjsec [.BRKOP, .CONST (.fin c), .VARID v, .HAT, .CONST (.fin 2),
        .BRKCL, .SLASH, .CONST (.fin 2)] [] =
      some ({ quadterms := [(.fin c, v, v)] }, [{ name := v }]) ∧
    processobjsec [.BRKOP, .CONST (.fin c), .VARID v, .HAT, .CONST (.fin 2),
        .BRKCL] [] = none ∧
    processobjsec [.BRKOP, .CONST (.fin c), .VARID v, .HAT, .CONST (.fin 2),
        .BRKCL, .SLASH, .CONST (.fin 3)] [] = none ∧
    processconsec [.BRKOP, .CONST (.fin c), .VARID v, .HAT, .CONST (.fin 2),
        .BRKCL, .COMP .LEQ, .CONST (.fin 4)] [] =
      some ([{ expr := { quadterms := [(.fin c, v, v)] },
               upperbound := .fin 4 }], [{ name := v }]) ∧
    processconsec [.BRKOP, .CONST (.fin c), .VARID v, .HAT, .CONST (.fin 2),
        .BRKCL, .SLASH, .CONST (.fin 2), .COMP .LEQ, .CONST (.fin 4)] [] =
      none := by
  refine ⟨?_, ?_, ?_, ?_, ?_⟩ <;>
    simp [processobjsec, processconsec, conloop, parseexpression, parseexprloop,
      parseexprquad, optIsCONID, optIsCONST, optIsVARID, optIsBRKOP, optIsBRKCL,
      optIsSLASH, optIsHAT, optIsAST, optIsCOMP, optCompDir, optConstVal, optName,
      getvarbyname]

/-- C5: each constraint is an expression followed by a mandatory
comparison and a mandatory constant; `=` sets both bounds to the constant,
`<=` the upper bound, `>=` the lower bound, and the strict comparisons
`<` and `>` are parse errors, as is a missing comparison or constant. -/
theorem C5_constraint_bounds (x : String) (v : Rat) :
    processconsec [.VARID x, .COMP .EQ, .CONST (.fin v)] [] =
      some ([{ expr := { linterms := [(.fin 1, x)] },
               lowerbound := .fin v, upperbound := .fin v }], [{ name := x }]) ∧
    processconsec [.VARID x, .COMP .LEQ, .CONST (.fin v)] [] =
      some ([{ expr := { linterms := [(.fin 1, x)] },
               upperbound := .fin v }], [{ name := x }]) ∧
    processconsec [.VARID x, .COMP .GEQ, .CONST (.fin v)] [] =
      some ([{ expr := { linterms := [(.fin 1, x)] },
               lowerbound := .fin v }], [{ name := x }]) ∧
    processconsec [.VARID x, .COMP .L, .CONST (.fin v)] [] = none ∧
    processconsec [.VARID x, .COMP .G, .CONST (.fin v)] [] = none ∧
    processconsec [.VARID x] [] = none ∧
    processconsec [.VARID x, .COMP .LEQ] [] = none ∧
    readFromRaw [.STR "min", .STR "o", .COLON, .STR "x", .STR "st", .STR "c",
      .COLON, .STR "x", .LESS, .CONS (.fin 3), .STR "end", .FLEND] = none := by
  refine ⟨?_, ?_, ?_, ?_, ?_, ?_, ?_, by decide⟩ <;>
    simp [processconsec, conloop, parseexpression, parseexprloop, optIsCONID,
      optIsCONST, optIsVARID, optIsBRKOP, optIsCOMP, optCompDir, optConstVal,
      optName, getvarbyname]

/-- C6: a bounds entry `CONSTANT COMPARISON VARIABLE_ID` sets the lower
bound on `<=`, the upper bound on `>=` and both on `=`; the mirrored entry
`VARIABLE_ID COMPARISON CONSTANT` sets the upper bound on `<=`, the lower
bound on `>=` and both on `=`; the strict comparisons are parse errors in
either form. -/
theorem C6_bounds_entries (x : String) (v : Rat) :
    processboundssec [.CONST (.fin v), .COMP .LEQ, .VARID x] [] =
      some [{ name := x, lowerbound := .fin v }] ∧
    processboundssec [.CONST (.fin v), .COMP .GEQ, .VARID x] [] =
      some [{ name := x, upperbound := .fin v }] ∧
    processboundssec [.CONST (.fin v), .COMP .EQ, .VARID x] [] =
      some [{ name := x, lowerbound := .fin v, upperbound := .fin v }] ∧
    processboundssec [.CONST (.fin v), .COMP .L, .VARID x] [] = none ∧
    processboundssec [.CONST (.fin v), .COMP .G, .VARID x] [] = none ∧
    processboundssec [.VARID x, .COMP .LEQ, .CONST (.fin v)] [] =
      some [{ name := x, upperbound := .fin v }] ∧
    processboundssec [.VARID x, .COMP .GEQ, .CONST (.fin v)] [] =
      some [{ name := x, lowerbound := .fin v }] ∧
    processboundssec [.VARID x, .COMP .EQ, .CONST (.fin v)] [] =
      some [{ name := x, lowerbound := .fin v, upperbound := .fin v }] ∧
    processboundssec [.VARID x, .COMP .L, .CONST (.fin v)] [] = none ∧
    processboundssec [.VARID x, .COMP .G, .CONST (.fin v)] [] = none := by
  refine ⟨?_, ?_, ?_, ?_, ?_, ?_, ?_, ?_, ?_, ?_⟩ <;>
    simp [processboundssec, boundsloop, updvar, optIsCONST, optIsVARID,
      optIsCOMP, optIsFREE, optCompDir, optConstVal, optName, getvarbyname]

/-! ## Store invariants

The section processors before the type sections only ever intern
variables (with continuous type) or rewrite bounds; the lemmas below
track this and power the claims about variable types and bounds. -/

/-- Store growth: every variable of the result is an original one or a
freshly interned continuous one. -/
def growsCont (st st' : Store) : Prop :=
  ∀ w ∈ st', w ∈ st ∨ w.type = .CONTINUOUS

theorem growsCont_refl (st : Store) : growsCont st st := fun _ hw => Or.inl hw

theorem growsCont_trans {a b c : Store} (h1 : growsCont a b) (h2 : growsCont b c) :
    growsCont a c := by
  intro w hw
  rcases h2 w hw with h | h
  · exact h1 w h
  · exact Or.inr h

theorem growsCont_getvarbyname (st : Store) (n : String) :
    growsCont st (getvarbyname st n) := by
  intro w hw
  unfold getvarbyname at hw
  split at hw
  · exact Or.inl hw
  · rcases List.mem_append.mp hw with h | h
    · exact Or.inl h
    · right
      simp at h
      rw [h]

theorem growsCont_parseexprquad (ts : List PTok) :
    ∀ fuel e st i e' st' i',
      parseexprquad ts fuel e st i = some (e', st', i') → growsCont st st' := by
  intro fuel
  induction fuel with
  | zero => intro e st i e' st' i' h; simp [parseexprquad] at h
  | succ fuel ih =>
      intro e st i e' st' i' h
      rw [parseexprquad] at h
      split_ifs at h with h1 h2 h3 h4 h5 h6
      · exact growsCont_trans
          (growsCont_trans (growsCont_getvarbyname _ _) (growsCont_getvarbyname _ _))
          (ih _ _ _ _ _ _ h)
      · exact growsCont_trans
          (growsCont_trans (growsCont_getvarbyname _ _) (growsCont_getvarbyname _ _))
          (ih _ _ _ _ _ _ h)
      · exact growsCont_trans
          (growsCont_trans (growsCont_getvarbyname _ _) (growsCont_getvarbyname _ _))
          (ih _ _ _ _ _ _ h)
      · exact growsCont_trans
          (growsCont_trans (growsCont_getvarbyname _ _) (growsCont_getvarbyname _ _))
          (ih _ _ _ _ _ _ h)
      · cases h; exact growsCont_refl _
      · cases h; exact growsCont_refl _

theorem growsCont_parseexprloop (ts : List PTok) (isobj : Bool) :
    ∀ fuel e st i e' st' i',
      parseexprloop ts isobj fuel e st i = some (e', st', i') → growsCont st st' := by
  intro fuel
  induction fuel with
  | zero => intro e st i e' st' i' h; simp [parseexprloop] at h
  | succ fuel ih =>
      intro e st i e' st' i' h
      rw [parseexprloop] at h
      split_ifs at h with h1 h2 h3 h4 h5
      rotate_left 5
      · cases h; exact growsCont_refl _
      · cases h; exact growsCont_refl _
      · exact growsCont_trans (growsCont_getvarbyname _ _) (ih _ _ _ _ _ _ h)
      · exact ih _ _ _ _ _ _ h
      · exact growsCont_trans (growsCont_getvarbyname _ _) (ih _ _ _ _ _ _ h)
      all_goals (
        cases hq : parseexprquad ts (ts.length + 1) e st (i+1) with
        | none => rw [hq] at h; simp at h
        | some r =>
            obtain ⟨e2, st2, j⟩ := r
            rw [hq] at h
            dsimp only at h
            have hgrow := growsCont_parseexprquad ts _ _ _ _ _ _ _ hq
            split_ifs at h
            exact growsCont_trans hgrow (ih _ _ _ _ _ _ h))

theorem growsCont_parseexpression (ts : List PTok) (e : Expression) (st : Store)
    (i : Nat) (isobj : Bool) (e' : Expression) (st' : Store) (i' : Nat)
    (h : parseexpression ts e st i isobj = some (e', st', i')) : growsCont st st' := by
  unfold parseexpression at h
  split_ifs at h
  · exact growsCont_parseexprloop ts isobj _ _ _ _ _ _ _ h
  · exact growsCont_parseexprloop ts isobj _ _ _ _ _ _ _ h

theorem growsCont_processobjsec (ts : List PTok) (st : Store)
    (e : Expression) (st' : Store)
    (h : processobjsec ts st = some (e, st')) : growsCont st st' := by
  unfold processobjsec at h
  rcases hp : parseexpression ts {} st 0 true with _ | ⟨e2, st2, j⟩
  · rw [hp] at h; simp at h
  · rw [hp] at h
    simp only [] at h
    split_ifs at h
    cases h
    exact growsCont_parseexpression ts _ _ _ _ _ _ _ hp

theorem growsCont_conloop (ts : List PTok) :
    ∀ fuel st i acc cons st',
      conloop ts fuel st i acc = some (cons, st') → growsCont st st' := by
  intro fuel
  induction fuel with
  | zero => intro st i acc cons st' h; simp [conloop] at h
  | succ fuel ih =>
      intro st i acc cons st' h
      rw [conloop] at h
      split_ifs at h with h1
      · cases hp : parseexpression ts {} st i false with
        | none => rw [hp] at h; simp at h
        | some r =>
            obtain ⟨e2, st2, j⟩ := r
            rw [hp] at h
            dsimp only at h
            have hgrow := growsCont_parseexpression ts _ _ _ _ _ _ _ hp
            split_ifs at h
            cases hd : optCompDir (ts.get? j) <;> rw [hd] at h <;>
              first
              | exact growsCont_trans hgrow (ih _ _ _ _ _ h)
              | simp at h
      · cases h; exact growsCont_refl _

theorem growsCont_processconsec (ts : List PTok) (st : Store)
    (cons : List Constraint) (st' : Store)
    (h : processconsec ts st = some (cons, st')) : growsCont st st' :=
  growsCont_conloop ts _ _ _ _ _ _ h

theorem growsCont_sosentries (ts : List PTok) :
    ∀ fuel st i acc es st' j,
      sosentries ts fuel st i acc = (es, st', j) → growsCont st st' := by
  intro fuel
  induction fuel with
  | zero =>
      intro st i acc es st' j h
      simp only [sosentries] at h
      cases h; exact growsCont_refl _
  | succ fuel ih =>
      intro st i acc es st' j h
      rw [sosentries] at h
      split_ifs at h
      · exact growsCont_trans (growsCont_getvarbyname _ _) (ih _ _ _ _ _ _ h)
      · cases h; exact growsCont_refl _

theorem growsCont_sosloop (ts : List PTok) :
    ∀ fuel st i acc soss st',
      sosloop ts fuel st i acc = some (soss, st') → growsCont st st' := by
  intro fuel
  induction fuel with
  | zero => intro st i acc soss st' h; simp [sosloop] at h
  | succ fuel ih =>
      intro st i acc soss st' h
      rw [sosloop] at h
      split_ifs at h with h1 h2 h3
      · rcases he : sosentries ts (ts.length + 1) st (i+2) [] with ⟨es, st2, j⟩
        rw [he] at h
        dsimp only at h
        split_ifs at h with h4
        exact growsCont_trans (growsCont_sosentries ts _ _ _ _ _ _ _ he)
          (ih _ _ _ _ _ h)
      · cases h; exact growsCont_refl _

theorem growsCont_processsossec (ts : List PTok) (st : Store)
    (soss : List SOS) (st' : Store)
    (h : processsossec ts st = some (soss, st')) : growsCont st st' :=
  growsCont_sosloop ts _ _ _ _ _ _ h

/-- Every variable of the store is continuous (true until the type
sections run). -/
def allCont (st : Store) : Prop := ∀ w ∈ st, w.type = .CONTINUOUS

theorem allCont_of_growsCont {st st' : Store} (h : allCont st)
    (hg : growsCont st st') : allCont st' := by
  intro w hw
  rcases hg w hw with hm | hc
  · exact h w hm
  · exact hc

theorem mem_getvarbyname {st : Store} {n : String} {w' : Variable}
    (h : w' ∈ getvarbyname st n) : w' ∈ st ∨ w' = { name := n } := by
  unfold getvarbyname at h
  split at h
  · exact Or.inl h
  · rcases List.mem_append.mp h with hm | hm
    · exact Or.inl hm
    · right; simpa using hm

theorem mem_updvar {st : Store} {n : String} {f : Variable → Variable} {w' : Variable}
    (h : w' ∈ updvar st n f) :
    ∃ w, w ∈ getvarbyname st n ∧ (w' = f w ∨ w' = w) := by
  unfold updvar at h
  rcases List.mem_map.mp h with ⟨w, hw, hww⟩
  refine ⟨w, hw, ?_⟩
  by_cases hn : w.name = n
  · left; rw [← hww]; simp [hn]
  · right; rw [← hww]; simp [hn]

theorem allCont_updvar {st : Store} {n : String} {f : Variable → Variable}
    (hf : ∀ w, (f w).type = w.type) (h : allCont st) : allCont (updvar st n f) := by
  intro w' hw'
  rcases mem_updvar hw' with ⟨w, hw, hcase⟩
  have hwc : w.type = .CONTINUOUS := by
    rcases mem_getvarbyname hw with hm | hd
    · exact h w hm
    · rw [hd]
  rcases hcase with rfl | rfl
  · rw [hf w]; exact hwc
  · exact hwc

theorem allCont_boundsloop (ts : List PTok) :
    ∀ fuel st i st', boundsloop ts fuel st i = some st' → allCont st → allCont st' := by
  intro fuel
  induction fuel with
  | zero => intro st i st' h; simp [boundsloop] at h
  | succ fuel ih =>
      intro st i st' h hc
      rw [boundsloop] at h
      split_ifs at h with h1 h2 h3 h4 h5 h6
      all_goals
        first
        | (cases h <;> exact hc)
        | exact ih _ _ _ h (allCont_updvar (fun w => rfl) hc)
        | (cases hd : optCompDir (ts.get? (i+1)) <;> rw [hd] at h <;> dsimp only at h <;>
            first
            | exact ih _ _ _ h (allCont_updvar (fun w => rfl) hc)
            | (cases h <;> exact hc))

theorem allCont_processboundssec {ts : List PTok} {st st' : Store}
    (h : processboundssec ts st = some st') (hc : allCont st) : allCont st' :=
  allCont_boundsloop ts _ _ _ _ h hc

/-- The binary-bounds invariant of C8: a binary variable has bounds [0,1]. -/
def binOK (st : Store) : Prop :=
  ∀ w ∈ st, w.type = .BINARY → w.lowerbound = .fin 0 ∧ w.upperbound = .fin 1

theorem binOK_of_allCont {st : Store} (h : allCont st) : binOK st := by
  intro w hw hb
  rw [h w hw] at hb
  cases hb

theorem binOK_of_growsCont {st st' : Store} (h : binOK st)
    (hg : growsCont st st') : binOK st' := by
  intro w hw hb
  rcases hg w hw with hm | hc
  · exact h w hm hb
  · rw [hc] at hb; cases hb

theorem binOK_updvar {st : Store} {n : String} {f : Variable → Variable}
    (hf : ∀ w, (f w).type = .BINARY →
      (f w).lowerbound = .fin 0 ∧ (f w).upperbound = .fin 1)
    (h : binOK st) : binOK (updvar st n f) := by
  intro w' hw' hb
  rcases mem_updvar hw' with ⟨w, hw, hcase⟩
  rcases hcase with hcase | hcase
  · rw [hcase] at hb ⊢
    exact hf w hb
  · rw [hcase] at hb ⊢
    rcases mem_getvarbyname hw with hm | hd
    · exact h w hm hb
    · rw [hd] at hb; cases hb

theorem binOK_typefold {f : Variable → Variable}
    (hf : ∀ w, (f w).type = .BINARY →
      (f w).lowerbound = .fin 0 ∧ (f w).upperbound = .fin 1) :
    ∀ ts (st st' : Store), typefold f ts st = some st' → binOK st → binOK st' := by
  intro ts
  induction ts with
  | nil => intro st st' h hb; cases h; exact hb
  | cons t rest ih =>
      intro st st' h hb
      cases t <;> simp [typefold] at h
      exact ih _ _ h (binOK_updvar hf hb)

theorem binupd_name (w : Variable) : (binupd w).name = w.name := rfl

theorem genupd_name (w : Variable) : (genupd w).name = w.name := by
  unfold genupd
  split <;> rfl

theorem semiupd_name (w : Variable) : (semiupd w).name = w.name := by
  unfold semiupd
  split <;> rfl

theorem lookupvar_typefold_notmem {f : Variable → Variable}
    (hfname : ∀ w, (f w).name = w.name) :
    ∀ ts (st st' : Store) (x : String), typefold f ts st = some st' →
      PTok.VARID x ∉ ts → lookupvar st' x = lookupvar st x := by
  intro ts
  induction ts with
  | nil => intro st st' x h _; cases h; rfl
  | cons t rest ih =>
      intro st st' x h hnm
      cases t <;> simp [typefold] at h
      rename_i n
      have hxr : PTok.VARID x ∉ rest := fun hr => hnm (List.mem_cons_of_mem _ hr)
      have hxn : x ≠ n := by
        intro he
        exact hnm (by rw [he]; exact List.mem_cons_self _ _)
      rw [ih _ _ _ h hxr, lookupvar_updvar_other st n x f hfname hxn]

/-- Current type of `x`, defaulting to continuous for a not-yet-interned
variable (interning creates it continuous). -/
def curType (st : Store) (x : String) : VariableType :=
  (lookupType st x).getD .CONTINUOUS

theorem typefold_mem_target {f : Variable → Variable} {tf : VariableType → VariableType}
    (hfname : ∀ w, (f w).name = w.name)
    (hftype : ∀ w, (f w).type = tf w.type)
    {P : VariableType → Prop} {T : VariableType}
    (himg : ∀ t, P t → tf t = T) (hT : P T) :
    ∀ ts (st st' : Store) (x : String), typefold f ts st = some st' →
      PTok.VARID x ∈ ts → P (curType st x) →
      lookupType st' x = some T := by
  intro ts
  induction ts with
  | nil => intro st st' x h hm; cases hm
  | cons t rest ih =>
      intro st st' x h hm hP
      cases t <;> simp [typefold] at h
      rename_i n
      by_cases hxn : x = n
      · subst hxn
        have hst1 : lookupType (updvar st x f) x = some T := by
          unfold lookupType
          rw [lookupvar_updvar_self st x f hfname]
          simp only [Option.map_some']
          have hd : ((lookupvar st x).getD { name := x }).type = curType st x := by
            unfold curType lookupType
            cases hl : lookupvar st x <;> simp
          rw [hftype, hd, himg _ hP]
        by_cases hr : PTok.VARID x ∈ rest
        · refine ih _ _ _ h hr ?_
          unfold curType
          rw [hst1]
          simpa using hT
        · rw [← hst1]
          unfold lookupType
          rw [lookupvar_typefold_notmem hfname rest _ _ _ h hr]
      · have hmr : PTok.VARID x ∈ rest := by
          rcases List.mem_cons.mp hm with he | hr
          · cases he; exact absurd rfl hxn
          · exact hr
        refine ih _ _ _ h hmr ?_
        unfold curType lookupType
        rw [lookupvar_updvar_other st n x f hfname hxn]
        exact hP

theorem typefold_count_one {f : Variable → Variable} {tf : VariableType → VariableType}
    (hfname : ∀ w, (f w).name = w.name)
    (hftype : ∀ w, (f w).type = tf w.type) :
    ∀ ts (st st' : Store) (x : String) (t0 : VariableType),
      typefold f ts st = some st' → ts.count (PTok.VARID x) = 1 →
      lookupType st x = some t0 →
      lookupType st' x = some (tf t0) := by
  intro ts
  induction ts with
  | nil => intro st st' x t0 h hcnt; simp at hcnt
  | cons t rest ih =>
      intro st st' x t0 h hcnt hl
      cases t <;> simp [typefold] at h
      rename_i n
      by_cases hxn : x = n
      · subst hxn
        have hc0 : rest.count (PTok.VARID x) = 0 := by
          rw [List.count_cons_self] at hcnt
          omega
        have hr : PTok.VARID x ∉ rest := by
          rw [← List.count_eq_zero]
          exact hc0
        have hst1 : lookupType (updvar st x f) x = some (tf t0) := by
          unfold lookupType
          rw [lookupvar_updvar_self st x f hfname]
          simp only [Option.map_some']
          have hd : ((lookupvar st x).getD { name := x }).type = t0 := by
            unfold lookupType at hl
            cases hlk : lookupvar st x with
            | none => rw [hlk] at hl; cases hl
            | some w =>
                rw [hlk] at hl
                simp at hl
                simp [hl]
          rw [hftype, hd]
        rw [← hst1]
        unfold lookupType
        rw [lookupvar_typefold_notmem hfname rest _ _ _ h hr]
      · have hcnt' : rest.count (PTok.VARID x) = 1 := by
          rwa [List.count_cons_of_ne (by simp [hxn]) ] at hcnt
        have hl' : lookupType (updvar st n f) x = some t0 := by
          unfold lookupType
          rw [lookupvar_updvar_other st n x f hfname hxn]
          exact hl
        exact ih _ _ _ _ h hcnt' hl'

theorem lookupvar_getvarbyname_keep {st : Store} {n x : String} {w : Variable}
    (h : lookupvar st x = some w) :
    lookupvar (getvarbyname st n) x = some w := by
  by_cases hxn : x = n
  · subst hxn
    rw [getvarbyname_of_found (by rw [h]; rfl)]
    exact h
  · rw [lookupvar_getvarbyname_other st n x hxn]
    exact h

theorem lookupvar_sosentries_keep (ts : List PTok) :
    ∀ fuel st i acc es st' j (x : String) (w : Variable),
      sosentries ts fuel st i acc = (es, st', j) →
      lookupvar st x = some w → lookupvar st' x = some w := by
  intro fuel
  induction fuel with
  | zero =>
      intro st i acc es st' j x w h hl
      simp only [sosentries] at h
      cases h; exact hl
  | succ fuel ih =>
      intro st i acc es st' j x w h hl
      rw [sosentries] at h
      split_ifs at h
      · exact ih _ _ _ _ _ _ _ _ h (lookupvar_getvarbyname_keep hl)
      · cases h; exact hl

theorem lookupvar_sosloop_keep (ts : List PTok) :
    ∀ fuel st i acc soss st' (x : String) (w : Variable),
      sosloop ts fuel st i acc = some (soss, st') →
      lookupvar st x = some w → lookupvar st' x = some w := by
  intro fuel
  induction fuel with
  | zero => intro st i acc soss st' x w h; simp [sosloop] at h
  | succ fuel ih =>
      intro st i acc soss st' x w h hl
      rw [sosloop] at h
      split_ifs at h with h1 h2 h3
      · rcases he : sosentries ts (ts.length + 1) st (i+2) [] with ⟨es, st2, j⟩
        rw [he] at h
        dsimp only at h
        split_ifs at h with h4
        exact ih _ _ _ _ _ _ _ h
          (lookupvar_sosentries_keep ts _ _ _ _ _ _ _ _ _ he hl)
      · cases h; exact hl

theorem lookupvar_processsossec_keep {ts : List PTok} {st : Store}
    {soss : List SOS} {st' : Store} {x : String} {w : Variable}
    (h : processsossec ts st = some (soss, st'))
    (hl : lookupvar st x = some w) : lookupvar st' x = some w :=
  lookupvar_sosloop_keep ts _ _ _ _ _ _ _ _ h hl

/-- Inversion of `processsections`: a successful run decomposes into the
nine section stages in their fixed order. -/
theorem processsections_inv {bks : Buckets} {sense : ObjectiveSense} {m : Model}
    (h : processsections bks sense = some m) :
    ∃ obj st1 cons st2 st3 st4 st5 st6 soss st7,
      bks.noneB = [] ∧
      processobjsec bks.objB [] = some (obj, st1) ∧
      processconsec bks.conB st1 = some (cons, st2) ∧
      processboundssec bks.boundsB st2 = some st3 ∧
      processgensec bks.genB st3 = some st4 ∧
      processbinsec bks.binB st4 = some st5 ∧
      processsemisec bks.semiB st5 = some st6 ∧
      processsossec bks.sosB st6 = some (soss, st7) ∧
      bks.endB = [] ∧
      m = { sense := sense, objective := obj, constraints := cons,
            soss := soss, vars := st7 } := by
  unfold processsections at h
  by_cases hn : bks.noneB = []
  rotate_left
  · rw [if_neg hn] at h; cases h
  rw [if_pos hn] at h
  cases h1 : processobjsec bks.objB [] with
  | none => rw [h1] at h; cases h
  | some r1 =>
      obtain ⟨obj, st1⟩ := r1
      rw [h1] at h
      dsimp only at h
      cases h2 : processconsec bks.conB st1 with
      | none => rw [h2] at h; cases h
      | some r2 =>
          obtain ⟨cons, st2⟩ := r2
          rw [h2] at h
          dsimp only at h
          cases h3 : processboundssec bks.boundsB st2 with
          | none => rw [h3] at h; cases h
          | some st3 =>
              rw [h3] at h
              dsimp only at h
              cases h4 : processgensec bks.genB st3 with
              | none => rw [h4] at h; cases h
              | some st4 =>
                  rw [h4] at h
                  dsimp only at h
                  cases h5 : processbinsec bks.binB st4 with
                  | none => rw [h5] at h; cases h
                  | some st5 =>
                      rw [h5] at h
                      dsimp only at h
                      cases h6 : processsemisec bks.semiB st5 with
                      | none => rw [h6] at h; cases h
                      | some st6 =>
                          rw [h6] at h
                          dsimp only at h
                          cases h7 : processsossec bks.sosB st6 with
                          | none => rw [h7] at h; cases h
                          | some r7 =>
                              obtain ⟨soss, st7⟩ := r7
                              rw [h7] at h
                              dsimp only at h
                              by_cases hend : bks.endB = []
                              rotate_left
                              · rw [if_neg hend] at h; cases h
                              rw [if_pos hend] at h
                              cases h
                              refine ⟨obj, st1, cons, st2, st3, st4, st5, st6,
                                soss, st7, hn, ?_, ?_, ?_, ?_, ?_, ?_, ?_,
                                hend, rfl⟩ <;> first | rfl | assumption

/-- Type transform of `genupd`. -/
def gentf (t : VariableType) : VariableType :=
  if t = .SEMICONTINUOUS then .SEMIINTEGER else .GENERAL

/-- Type transform of `semiupd`. -/
def semitf (t : VariableType) : VariableType :=
  if t = .GENERAL then .SEMIINTEGER else .SEMICONTINUOUS

theorem genupd_type (w : Variable) : (genupd w).type = gentf w.type := by
  unfold genupd gentf
  split_ifs <;> rfl

theorem semiupd_type (w : Variable) : (semiupd w).type = semitf w.type := by
  unfold semiupd semitf
  split_ifs <;> rfl

theorem allCont_nil : allCont ([] : Store) := fun w hw => absurd hw (List.not_mem_nil w)

theorem curType_of_allCont {st : Store} (hc : allCont st) (x : String) :
    curType st x = .CONTINUOUS := by
  unfold curType lookupType
  cases hl : lookupvar st x with
  | none => rfl
  | some w =>
      simp only [Option.map_some', Option.getD_some]
      exact hc w (List.mem_of_find?_eq_some hl)

/-- C7 counterexample: the claim says a variable mentioned in both the
general and the semi sections of a successfully parsed file ends
semi-integer.  The file `min o: x gen x bin x semi x end` parses
successfully, mentions `x` in both sections, yet `x` ends semi-continuous
(the binary section in between resets the type the semi pass inspects). -/
theorem C7_counterexample :
    readFromRaw [.STR "min", .STR "o", .COLON, .STR "x", .STR "gen", .STR "x",
      .STR "bin", .STR "x", .STR "semi", .STR "x", .STR "end", .FLEND] =
      some { objective := { name := "o", linterms := [(.fin 1, "x")] },
             vars := [{ name := "x", lowerbound := .fin 0, upperbound := .fin 1,
                        type := .SEMICONTINUOUS }] } ∧
    VariableType.SEMICONTINUOUS ≠ VariableType.SEMIINTEGER := by
  constructor <;> decide

/-- C7 (amended): in a successfully parsed file, a variable mentioned in
the general section and exactly once in the semi section, and not in the
binary section, ends semi-integer; one mentioned only in the general
section (and in neither semi nor binary) ends general-integer; one
mentioned in the semi section but in neither general nor binary ends
semi-continuous.  (The amendment excludes the binary section and repeated
semi mentions, which the counterexample shows change the outcome.) -/
theorem C7_gensemi_types (bks : Buckets) (sense : ObjectiveSense) (m : Model)
    (h : processsections bks sense = some m) (x : String) :
    (PTok.VARID x ∈ bks.genB → bks.semiB.count (PTok.VARID x) = 1 →
      PTok.VARID x ∉ bks.binB → lookupType m.vars x = some .SEMIINTEGER) ∧
    (PTok.VARID x ∈ bks.genB → PTok.VARID x ∉ bks.semiB →
      PTok.VARID x ∉ bks.binB → lookupType m.vars x = some .GENERAL) ∧
    (PTok.VARID x ∉ bks.genB → PTok.VARID x ∈ bks.semiB →
      PTok.VARID x ∉ bks.binB → lookupType m.vars x = some .SEMICONTINUOUS) := by
  obtain ⟨obj, st1, cons, st2, st3, st4, st5, st6, soss, st7, hn, h1, h2, h3,
    h4, h5, h6, h7, hend, hm⟩ := processsections_inv h
  subst hm
  have hc1 : allCont st1 :=
    allCont_of_growsCont allCont_nil (growsCont_processobjsec _ _ _ _ h1)
  have hc2 : allCont st2 :=
    allCont_of_growsCont hc1 (growsCont_processconsec _ _ _ _ h2)
  have hc3 : allCont st3 := allCont_processboundssec h3 hc2
  have hcur3 : curType st3 x = .CONTINUOUS := curType_of_allCont hc3 x
  have hsos : ∀ t, lookupType st6 x = some t → lookupType st7 x = some t := by
    intro t hl
    unfold lookupType at hl ⊢
    cases hlk : lookupvar st6 x with
    | none => rw [hlk] at hl; cases hl
    | some w =>
        rw [hlk] at hl
        rw [lookupvar_processsossec_keep h7 hlk]
        exact hl
  refine ⟨?_, ?_, ?_⟩
  · intro hg hs hb
    have hg4 : lookupType st4 x = some .GENERAL := by
      refine typefold_mem_target genupd_name genupd_type
        (P := fun t => t = .CONTINUOUS ∨ t = .GENERAL) (T := .GENERAL)
        ?_ (Or.inr rfl) bks.genB st3 st4 x h4 hg ?_
      · intro t ht
        rcases ht with rfl | rfl <;> rfl
      · rw [hcur3]; exact Or.inl rfl
    have hg5 : lookupType st5 x = some .GENERAL := by
      unfold lookupType at hg4 ⊢
      rw [lookupvar_typefold_notmem binupd_name bks.binB st4 st5 x h5 hb]
      exact hg4
    have hg6 : lookupType st6 x = some .SEMIINTEGER :=
      typefold_count_one semiupd_name semiupd_type bks.semiB st5 st6 x
        .GENERAL h6 hs hg5
    exact hsos _ hg6
  · intro hg hs hb
    have hg4 : lookupType st4 x = some .GENERAL := by
      refine typefold_mem_target genupd_name genupd_type
        (P := fun t => t = .CONTINUOUS ∨ t = .GENERAL) (T := .GENERAL)
        ?_ (Or.inr rfl) bks.genB st3 st4 x h4 hg ?_
      · intro t ht
        rcases ht with rfl | rfl <;> rfl
      · rw [hcur3]; exact Or.inl rfl
    have hg5 : lookupType st5 x = some .GENERAL := by
      unfold lookupType at hg4 ⊢
      rw [lookupvar_typefold_notmem binupd_name bks.binB st4 st5 x h5 hb]
      exact hg4
    have hg6 : lookupType st6 x = some .GENERAL := by
      unfold lookupType at hg5 ⊢
      rw [lookupvar_typefold_notmem semiupd_name bks.semiB st5 st6 x h6 hs]
      exact hg5
    exact hsos _ hg6
  · intro hg hs hb
    have hl4 : lookupvar st4 x = lookupvar st3 x :=
      lookupvar_typefold_notmem genupd_name bks.genB st3 st4 x h4 hg
    have hl5 : lookupvar st5 x = lookupvar st3 x := by
      rw [lookupvar_typefold_notmem binupd_name bks.binB st4 st5 x h5 hb]
      exact hl4
    have hcur5 : curType st5 x = .CONTINUOUS := by
      unfold curType lookupType
      rw [hl5]
      exact hcur3
    have hg6 : lookupType st6 x = some .SEMICONTINUOUS := by
      refine typefold_mem_target semiupd_name semiupd_type
        (P := fun t => t = .CONTINUOUS ∨ t = .SEMICONTINUOUS) (T := .SEMICONTINUOUS)
        ?_ (Or.inr rfl) bks.semiB st5 st6 x h6 hs ?_
      · intro t ht
        rcases ht with rfl | rfl <;> rfl
      · rw [hcur5]; exact Or.inl rfl
    exact hsos _ hg6

/-- Concrete buckets for the C7 witness. -/
def C7bks : Buckets := { genB := [.VARID "x"], semiB := [.VARID "x"] }

/-- Concrete model for the C7 witness. -/
def C7m : Model :=
  { vars := [{ name := "x", type := .SEMIINTEGER }] }

theorem C7_gensemi_types_witness :
    lookupType C7m.vars "x" = some VariableType.SEMIINTEGER :=
  (C7_gensemi_types C7bks .MIN C7m (by decide) "x").1 (by decide) (by decide)
    (by decide)

/-- C8: in every successfully processed file, a variable that ends with
type binary has lower bound 0 and upper bound 1: the binary section sets
exactly these bounds with the type, and no later step changes the bounds
of a variable that stays binary. -/
theorem C8_binary_bounds (bks : Buckets) (sense : ObjectiveSense) (m : Model)
    (h : processsections bks sense = some m) :
    ∀ w ∈ m.vars, w.type = .BINARY →
      w.lowerbound = .fin 0 ∧ w.upperbound = .fin 1 := by
  obtain ⟨obj, st1, cons, st2, st3, st4, st5, st6, soss, st7, hn, h1, h2, h3,
    h4, h5, h6, h7, hend, hm⟩ := processsections_inv h
  subst hm
  have hc1 : allCont st1 :=
    allCont_of_growsCont allCont_nil (growsCont_processobjsec _ _ _ _ h1)
  have hc2 : allCont st2 :=
    allCont_of_growsCont hc1 (growsCont_processconsec _ _ _ _ h2)
  have hc3 : allCont st3 := allCont_processboundssec h3 hc2
  have hb4 : binOK st4 := by
    refine binOK_typefold ?_ bks.genB st3 st4 h4 (binOK_of_allCont hc3)
    intro w hbin
    rw [genupd_type] at hbin
    unfold gentf at hbin
    split_ifs at hbin <;> cases hbin
  have hb5 : binOK st5 := by
    refine binOK_typefold ?_ bks.binB st4 st5 h5 hb4
    intro w hbin
    exact ⟨rfl, rfl⟩
  have hb6 : binOK st6 := by
    refine binOK_typefold ?_ bks.semiB st5 st6 h6 hb5
    intro w hbin
    rw [semiupd_type] at hbin
    unfold semitf at hbin
    split_ifs at hbin <;> cases hbin
  exact binOK_of_growsCont hb6 (growsCont_processsossec _ _ _ _ h7)

/-- Concrete buckets for the C8 witness. -/
def C8bks : Buckets := { binB := [.VARID "x"] }

/-- Concrete model for the C8 witness. -/
def C8m : Model :=
  { vars := [{ name := "x", lowerbound := .fin 0, upperbound := .fin 1,
               type := .BINARY }] }

theorem C8_binary_bounds_witness :
    ({ name := "x", lowerbound := .fin 0, upperbound := .fin 1,
       type := .BINARY } : Variable).lowerbound = Val.fin 0 ∧
    ({ name := "x", lowerbound := .fin 0, upperbound := .fin 1,
       type := .BINARY } : Variable).upperbound = Val.fin 1 :=
  C8_binary_bounds C8bks .MIN C8m (by decide) _ (by decide) (by decide)

/-- Head shape test: next raw token is a number. -/
def headIsCONS : List RawTok → Bool
  | .CONS _ :: _ => true
  | _ => false

/-- Head shape test: next raw token is an opening bracket. -/
def headIsBRKOP : List RawTok → Bool
  | .BRKOP :: _ => true
  | _ => false

/-- C9: a bare `PLUS` (not followed by a number or an opening bracket)
is classified as `CONSTANT(+1)` and a bare `MINUS` (not followed by a
number) as `CONSTANT(-1)`; consequently the expression `x - y + 3`
classifies to `VARID x, CONST -1, VARID y, CONST 3` and parses to exactly
the linear terms (+1, x) and (-1, y), in that order, with offset 3 and no
quadratic terms. -/
theorem C9_implicit_signs :
    (∀ rest : List RawTok, headIsCONS rest = false → headIsBRKOP rest = false →
      ptstep (.PLUS :: rest) = some ([.CONST (.fin 1)], rest)) ∧
    (∀ rest : List RawTok, headIsCONS rest = false →
      ptstep (.MINUS :: rest) = some ([.CONST (.fin (-1))], rest)) ∧
    processtokens [.STR "x", .MINUS, .STR "y", .PLUS, .CONS (.fin 3), .FLEND] =
      some [.VARID "x", .CONST (.fin (-1)), .VARID "y", .CONST (.fin 3)] ∧
    processobjsec [.VARID "x", .CONST (.fin (-1)), .VARID "y", .CONST (.fin 3)] [] =
      some ({ linterms := [(.fin 1, "x"), (.fin (-1), "y")], offset := .fin 3 },
        [{ name := "x" }, { name := "y" }]) := by
  refine ⟨?_, ?_, by decide, by decide⟩
  · intro rest h1 h2
    cases rest with
    | nil => rfl
    | cons t r =>
        cases t with
        | CONS v => exact absurd h1 (by simp [headIsCONS])
        | BRKOP => exact absurd h2 (by simp [headIsBRKOP])
        | _ => rfl
  · intro rest h1
    cases rest with
    | nil => rfl
    | cons t r =>
        cases t <;>
          first
          | rfl
          | exact absurd h1 (by simp [headIsCONS])

theorem C9_implicit_signs_witness :
    ptstep [RawTok.PLUS] = some ([PTok.CONST (Val.fin 1)], []) ∧
    ptstep [RawTok.MINUS] = some ([PTok.CONST (Val.fin (-1))], []) :=
  ⟨C9_implicit_signs.1 [] rfl rfl, C9_implicit_signs.2.1 [] rfl⟩

theorem ruleKw3_secid {ts : List RawTok} {out : List PTok} {r : List RawTok}
    (h : ruleKw3 ts = some (out, r)) : ∃ k os, out = [PTok.SECID k os] := by
  unfold ruleKw3 at h
  split at h
  · dsimp only at h
    split_ifs at h
    cases h
    exact ⟨_, _, rfl⟩
  · cases h

theorem ruleKw2_secid {ts : List RawTok} {out : List PTok} {r : List RawTok}
    (h : ruleKw2 ts = some (out, r)) : ∃ k os, out = [PTok.SECID k os] := by
  unfold ruleKw2 at h
  split at h
  · dsimp only at h
    split_ifs at h
    cases h
    exact ⟨_, _, rfl⟩
  · cases h

theorem ruleKw1_of_kw (a : String) (rest : List RawTok)
    (hk : parsesectionkeyword a ≠ .NONE) :
    ∃ k os, ruleKw1 (.STR a :: rest) = some ([PTok.SECID k os], rest) := by
  unfold ruleKw1
  dsimp only
  rw [if_pos hk]
  by_cases ho : parsesectionkeyword a = .OBJ
  · rw [if_pos ho]
    exact ⟨_, _, rfl⟩
  · rw [if_neg ho]
    exact ⟨_, _, rfl⟩

/-- C10: section-keyword recognition precedes every other classification
of a string: whenever the classifier takes a step on a leading `STRING`
that case-insensitively matches a section keyword, the emitted token is a
`SECTION_HEADER` (never a `VARIABLE_ID` or `CONSTRAINT_LABEL`); and using
such a word as a label (`st:`) leaves a stray colon on which the
classifier fails. -/
theorem C10_keyword_precedence :
    (∀ (s : String) (rest : List RawTok) (out : List PTok) (rest' : List RawTok),
      parsesectionkeyword s ≠ .NONE →
      ptstep (.STR s :: rest) = some (out, rest') →
      ∃ k os, out = [PTok.SECID k os]) ∧
    processtokens [.STR "st", .COLON, .FLEND] = none := by
  refine ⟨?_, by decide⟩
  intro s rest out rest' hk hstep
  unfold ptstep at hstep
  cases h3 : ruleKw3 (.STR s :: rest) with
  | some r3 =>
      rw [h3, orr_some] at hstep
      cases hstep
      exact ruleKw3_secid h3
  | none =>
      rw [h3, orr_none] at hstep
      cases h2 : ruleKw2 (.STR s :: rest) with
      | some r2 =>
          rw [h2, orr_some] at hstep
          cases hstep
          exact ruleKw2_secid h2
      | none =>
          rw [h2, orr_none] at hstep
          obtain ⟨k, os, h1⟩ := ruleKw1_of_kw s rest hk
          rw [h1, orr_some] at hstep
          cases hstep
          exact ⟨k, os, rfl⟩

theorem C10_keyword_precedence_witness :
    ∃ k os, ([PTok.SECID .BOUNDS .NONE] : List PTok) = [PTok.SECID k os] :=
  C10_keyword_precedence.1 "bounds" [] [PTok.SECID .BOUNDS .NONE] []
    (by decide) (by decide)
